import Mathlib

/-!
Shallow embedding of `flash/utils/ByteArray.go` from wolfired/as2go.

Conventions of the embedding:
* Go `uint` is modelled as `Nat` (the arithmetic performed by the code never
  approaches 2^64 on the inputs the claims are about), Go `int` / `int8` /
  `int16` as `Int` with the explicit mod-2^w conversions the code performs.
* The backing store `raw []byte` is a `List Nat` of byte values; `len(b.raw)`
  is `b.raw.length` (the buffer's capacity).
* A Go function returning `(T, error)` becomes `T × Option Err × ByteArray`,
  the last component being the updated receiver; a function returning only
  `error` and mutating two buffers becomes `Option Err × ByteArray × ByteArray`.
* `math.Float64frombits` / `Float32frombits` are not modelled: the float reads
  and writes carry the raw IEEE bit pattern as a `Nat`, since every claim
  about them concerns only cursor movement, growth and the error paths.
* Go strings are byte sequences; `string(b.raw[a:b])` is modelled as the
  byte list itself (the Go code performs no UTF-8 validation).
* The symbolic endian constants `EndianBig` / `EndianLittle` are declared in a
  file of the repository that is not present under `src/`; following the
  spec's "two symbolic modes, big/little" they are modelled by the two-valued
  `Endian` type, and `SetEndian` takes that type directly.
-/

namespace AS2GO

inductive Endian where
  | big : Endian
  | little : Endian
deriving DecidableEq

/-- The two error values of `flash/errors`: `ErrorEOF` and `ErrorRange`. -/
inductive Err where
  | eof : Err
  | range : Err
deriving DecidableEq

def pointerPosition : Nat := 0x1

def pointerLength : Nat := 0x2

def pointerCapacity : Nat := 0x4

def byteWide1 : Nat := 1

def byteWide2 : Nat := 2

def byteWide4 : Nat := 4

def byteWide8 : Nat := 8

/-- The `ByteArray` struct: backing store, endianness, cursor and logical
length.  Field order follows `src/flash/utils/ByteArray.go`. -/
structure ByteArray where
  raw : List Nat
  endian : Endian
  position : Nat
  length : Nat
deriving DecidableEq

/-- `len(b.raw)`: the capacity of the backing store. -/
def capacity (b : ByteArray) : Nat := b.raw.length

/-- `BytesAvailable`: remaining readable bytes. -/
def BytesAvailable (b : ByteArray) : Nat :=
  if b.length > b.position then b.length - b.position else 0

/-- `checkLength`: returns `ErrorEOF` when fewer than `needBytes` bytes
remain. -/
def checkLength (b : ByteArray) (needBytes : Nat) : Option Err :=
  if BytesAvailable b < needBytes then some Err.eof else none

/-- The loop `for oldCap < newCap { oldCap += oldCap }` of `checkCapacity`,
made structural with an explicit fuel argument.  `checkCapacity` runs it with
fuel `newCap`, which is enough for the loop to reach its fixpoint whenever
`oldCap ≥ 1` (lemma `growLoop_stable` below shows the result is then
independent of the fuel); the Go loop itself diverges when `oldCap = 0`, a
case `checkCapacity` never reaches because it is guarded by `0 == oldCap`. -/
def growLoop : Nat → Nat → Nat → Nat
  | 0, oldCap, _ => oldCap
  | fuel + 1, oldCap, newCap =>
      if oldCap < newCap then growLoop fuel (oldCap + oldCap) newCap else oldCap

/-- Go `copy(raw[i:i+len(vs)], vs)` for the in-range uses the code makes of
it (`i + len(vs) ≤ len(raw)` at every call site that executes). -/
def storeBytes (raw : List Nat) (i : Nat) (vs : List Nat) : List Nat :=
  raw.take i ++ vs ++ raw.drop (i + vs.length)

/-- `checkCapacity`: allocate exactly `newCap` when the store is empty,
otherwise double until the capacity covers `newCap`, copying the
valid-length prefix `raw[:length]` into the fresh zeroed region. -/
def checkCapacity (b : ByteArray) (newCap : Nat) : ByteArray :=
  let oldCap := b.raw.length
  if oldCap = 0 then
    { b with raw := List.replicate newCap 0 }
  else if oldCap < newCap then
    let c := growLoop newCap (oldCap + oldCap) newCap
    let oldRaw := b.raw.take b.length
    { b with raw := oldRaw ++ List.replicate (c - oldRaw.length) 0 }
  else b

/-- `movePointer`: advance the position and/or raise the length to
`position + moveBytes`, depending on the flag mask. -/
def movePointer (b : ByteArray) (moveBytes : Nat) (pointerType : Nat) : ByteArray :=
  let newPos := b.position + moveBytes
  let b1 := if 0 < pointerPosition &&& pointerType then { b with position := newPos } else b
  if 0 < pointerLength &&& pointerType then
    if b1.length < newPos then { b1 with length := newPos } else b1
  else b1

/-- `NewByteArray(raw []byte)`: wrap the given slice (or an empty one for
`nil`) and run the constructor's `SetEndian`/`SetPosition`/`SetLength`
calls on the zero-valued struct. -/
def SetEndian (b : ByteArray) (endian : Endian) : ByteArray :=
  { b with endian := endian }

def GetEndian (b : ByteArray) : Endian := b.endian

def GetLength (b : ByteArray) : Nat := b.length

def GetPosition (b : ByteArray) : Nat := b.position

/-- `SetPosition`: sets the cursor with no clamping against length. -/
def SetPosition (b : ByteArray) (newPos : Nat) : ByteArray :=
  if b.position = newPos then b else { b with position := newPos }

/-- `SetLength`: grow capacity when raising, clamp the position when
lowering below it. -/
def SetLength (b : ByteArray) (newLen : Nat) : ByteArray :=
  if b.length = newLen then b
  else
    let b1 := if b.length < newLen then checkCapacity b newLen else b
    let b2 := { b1 with length := newLen }
    if b2.position > b2.length then SetPosition b2 b2.length else b2

def NewByteArray (raw : Option (List Nat)) : ByteArray :=
  let b : ByteArray :=
    { raw := match raw with
             | none => []
             | some r => r,
      endian := Endian.big, position := 0, length := 0 }
  SetLength (SetPosition (SetEndian b Endian.big) 0) 0

/-- `Clear`: position and length to 0, capacity untouched. -/
def Clear (b : ByteArray) : ByteArray :=
  SetLength (SetPosition b 0) 0

/-- `binary.BigEndian.Uint16` / `LittleEndian.Uint16` on the slice starting
at the read position. -/
def euint16 (e : Endian) (l : List Nat) : Nat :=
  match e with
  | Endian.big => l.getD 0 0 * 256 + l.getD 1 0
  | Endian.little => l.getD 1 0 * 256 + l.getD 0 0

def euint32 (e : Endian) (l : List Nat) : Nat :=
  match e with
  | Endian.big =>
      ((l.getD 0 0 * 256 + l.getD 1 0) * 256 + l.getD 2 0) * 256 + l.getD 3 0
  | Endian.little =>
      ((l.getD 3 0 * 256 + l.getD 2 0) * 256 + l.getD 1 0) * 256 + l.getD 0 0

def euint64 (e : Endian) (l : List Nat) : Nat :=
  match e with
  | Endian.big =>
      ((((((l.getD 0 0 * 256 + l.getD 1 0) * 256 + l.getD 2 0) * 256 + l.getD 3 0) * 256 +
         l.getD 4 0) * 256 + l.getD 5 0) * 256 + l.getD 6 0) * 256 + l.getD 7 0
  | Endian.little =>
      ((((((l.getD 7 0 * 256 + l.getD 6 0) * 256 + l.getD 5 0) * 256 + l.getD 4 0) * 256 +
         l.getD 3 0) * 256 + l.getD 2 0) * 256 + l.getD 1 0) * 256 + l.getD 0 0

/-- `binary.(Big|Little)Endian.PutUint16`. -/
def putUint16 (e : Endian) (v : Nat) : List Nat :=
  match e with
  | Endian.big => [v / 256 % 256, v % 256]
  | Endian.little => [v % 256, v / 256 % 256]

def putUint32 (e : Endian) (v : Nat) : List Nat :=
  match e with
  | Endian.big => [v / 16777216 % 256, v / 65536 % 256, v / 256 % 256, v % 256]
  | Endian.little => [v % 256, v / 256 % 256, v / 65536 % 256, v / 16777216 % 256]

def putUint64 (e : Endian) (v : Nat) : List Nat :=
  match e with
  | Endian.big =>
      [v / 72057594037927936 % 256, v / 281474976710656 % 256, v / 1099511627776 % 256,
       v / 4294967296 % 256, v / 16777216 % 256, v / 65536 % 256, v / 256 % 256, v % 256]
  | Endian.little =>
      [v % 256, v / 256 % 256, v / 65536 % 256, v / 16777216 % 256, v / 4294967296 % 256,
       v / 1099511627776 % 256, v / 281474976710656 % 256, v / 72057594037927936 % 256]

/-- Go `int8(value)` of a byte value. -/
def toInt8 (v : Nat) : Int :=
  if v % 256 < 128 then ((v % 256 : Nat) : Int) else ((v % 256 : Nat) : Int) - 256

/-- Go `int16(value)` of a `uint16` value. -/
def toInt16 (v : Nat) : Int :=
  if v % 65536 < 32768 then ((v % 65536 : Nat) : Int)
  else ((v % 65536 : Nat) : Int) - 65536

/-- Go `byte(value)` of an integer. -/
def intToByte (v : Int) : Nat := (v % 256).toNat

/-- Go `uint16(value)` of an integer. -/
def intToUint16 (v : Int) : Nat := (v % 65536).toNat

/-- Go `uint32(value)` of an integer. -/
def intToUint32 (v : Int) : Nat := (v % 4294967296).toNat

/-- `ReadBoolean`: one byte, nonzero means `true`. -/
def ReadBoolean (b : ByteArray) : Bool × Option Err × ByteArray :=
  match checkLength b byteWide1 with
  | some err => (false, some err, b)
  | none =>
      let value := b.raw.getD b.position 0
      (value != 0, none, movePointer b byteWide1 pointerPosition)

/-- `ReadByte`: one signed byte. -/
def ReadByte (b : ByteArray) : Int × Option Err × ByteArray :=
  match checkLength b byteWide1 with
  | some err => (0, some err, b)
  | none =>
      (toInt8 (b.raw.getD b.position 0), none, movePointer b byteWide1 pointerPosition)

/-- The body of `ReadBytes` past the availability branch: range check,
destination growth, copy, destination length update, source advance.
Returned as (error, source, destination). -/
def readBytesCopy (b bytes : ByteArray) (offset length : Nat) :
    Option Err × ByteArray × ByteArray :=
  if 4294967295 < offset + length then (some Err.range, b, bytes)
  else
    let bytes1 := checkCapacity bytes (offset + length)
    let bytes2 :=
      { bytes1 with
        raw := storeBytes bytes1.raw offset ((b.raw.drop b.position).take length) }
    let bytes3 :=
      if offset + length > bytes2.length then
        movePointer bytes2 (offset + length - bytes2.length) pointerLength
      else bytes2
    (none, movePointer b length pointerPosition, bytes3)

/-- `ReadBytes(bytes, offset, length)`. -/
def ReadBytes (b bytes : ByteArray) (offset length : Nat) :
    Option Err × ByteArray × ByteArray :=
  if length = 0 then
    let length2 := BytesAvailable b
    if length2 = 0 then (none, b, bytes)
    else readBytesCopy b bytes offset length2
  else
    match checkLength b length with
    | some err => (some err, b, bytes)
    | none => readBytesCopy b bytes offset length

/-- `ReadDouble`: the value component is the raw 64-bit pattern
(`Float64frombits` is not modelled). -/
def ReadDouble (b : ByteArray) : Nat × Option Err × ByteArray :=
  match checkLength b byteWide8 with
  | some err => (0, some err, b)
  | none =>
      (euint64 b.endian (b.raw.drop b.position), none,
       movePointer b byteWide8 pointerPosition)

/-- `ReadFloat`: the value component is the raw 32-bit pattern. -/
def ReadFloat (b : ByteArray) : Nat × Option Err × ByteArray :=
  match checkLength b byteWide4 with
  | some err => (0, some err, b)
  | none =>
      (euint32 b.endian (b.raw.drop b.position), none,
       movePointer b byteWide4 pointerPosition)

/-- `ReadInt`: Go computes `int(uint32)`, which on 64-bit targets
zero-extends the unsigned 32-bit value. -/
def ReadInt (b : ByteArray) : Int × Option Err × ByteArray :=
  match checkLength b byteWide4 with
  | some err => (0, some err, b)
  | none =>
      (Int.ofNat (euint32 b.endian (b.raw.drop b.position)), none,
       movePointer b byteWide4 pointerPosition)

/-- `ReadShort`: `int16` of the decoded `uint16`. -/
def ReadShort (b : ByteArray) : Int × Option Err × ByteArray :=
  match checkLength b byteWide2 with
  | some err => (0, some err, b)
  | none =>
      (toInt16 (euint16 b.endian (b.raw.drop b.position)), none,
       movePointer b byteWide2 pointerPosition)

def ReadUnsignedByte (b : ByteArray) : Nat × Option Err × ByteArray :=
  match checkLength b byteWide1 with
  | some err => (0, some err, b)
  | none =>
      (b.raw.getD b.position 0, none, movePointer b byteWide1 pointerPosition)

def ReadUnsignedInt (b : ByteArray) : Nat × Option Err × ByteArray :=
  match checkLength b byteWide4 with
  | some err => (0, some err, b)
  | none =>
      (euint32 b.endian (b.raw.drop b.position), none,
       movePointer b byteWide4 pointerPosition)

def ReadUnsignedShort (b : ByteArray) : Nat × Option Err × ByteArray :=
  match checkLength b byteWide2 with
  | some err => (0, some err, b)
  | none =>
      (euint16 b.endian (b.raw.drop b.position), none,
       movePointer b byteWide2 pointerPosition)

/-- `ReadUTFBytes(length uint16)`: the `uint16` argument is modelled as a
`Nat` (every caller passes a decoded unsigned short, already below 2^16). -/
def ReadUTFBytes (b : ByteArray) (length : Nat) : List Nat × Option Err × ByteArray :=
  match checkLength b length with
  | some err => ([], some err, b)
  | none =>
      ((b.raw.drop b.position).take length, none,
       movePointer b length pointerPosition)

/-- `ReadUTF`: `length, _ := b.ReadUnsignedShort(); return b.ReadUTFBytes(length)`
— note the discarded error. -/
def ReadUTF (b : ByteArray) : List Nat × Option Err × ByteArray :=
  let r := ReadUnsignedShort b
  ReadUTFBytes r.2.2 r.1

/-- `WriteBoolean`: stores `raw[position] = 0`, then `1` when the value is
true — a single-byte store of `0` or `1`. -/
def WriteBoolean (b : ByteArray) (value : Bool) : ByteArray :=
  let b1 := checkCapacity b (b.position + byteWide1)
  let b2 := { b1 with raw := storeBytes b1.raw b1.position [if value then 1 else 0] }
  movePointer b2 byteWide1 (pointerPosition ||| pointerLength)

/-- `WriteByte(value int8)`. -/
def WriteByte (b : ByteArray) (value : Int) : ByteArray :=
  let b1 := checkCapacity b (b.position + byteWide1)
  let b2 := { b1 with raw := storeBytes b1.raw b1.position [intToByte value] }
  movePointer b2 byteWide1 (pointerPosition ||| pointerLength)

/-- The clamped copy length computed by the first two statements of
`WriteBytes` (a stand-alone restatement used by the theorems about it). -/
def writeBytesLen (bytes : ByteArray) (offset length : Nat) : Nat :=
  let offset2 := if bytes.length < offset then 0 else offset
  if length = 0 ∨ bytes.length < offset2 + length then bytes.length - offset2 else length

/-- `WriteBytes(bytes, offset, length)`: clamp `offset` and `length` against
the source, grow, copy, and advance — `movePointer` is called with
`pointerPosition` only. -/
def WriteBytes (b bytes : ByteArray) (offset length : Nat) : ByteArray :=
  let offset2 := if bytes.length < offset then 0 else offset
  let length2 :=
    if length = 0 ∨ bytes.length < offset2 + length then bytes.length - offset2 else length
  let b1 := checkCapacity b (b.position + length2)
  let b2 :=
    { b1 with raw := storeBytes b1.raw b1.position ((bytes.raw.drop offset2).take length2) }
  movePointer b2 length2 pointerPosition

/-- `WriteDouble`: the value is the raw 64-bit pattern
(`Float64bits` is not modelled). -/
def WriteDouble (b : ByteArray) (bits : Nat) : ByteArray :=
  let b1 := checkCapacity b (b.position + byteWide8)
  let b2 := { b1 with raw := storeBytes b1.raw b1.position (putUint64 b1.endian (bits % 18446744073709551616)) }
  movePointer b2 byteWide8 (pointerPosition ||| pointerLength)

/-- `WriteFloat`: the value is the raw 32-bit pattern. -/
def WriteFloat (b : ByteArray) (bits : Nat) : ByteArray :=
  let b1 := checkCapacity b (b.position + byteWide4)
  let b2 := { b1 with raw := storeBytes b1.raw b1.position (putUint32 b1.endian (bits % 4294967296)) }
  movePointer b2 byteWide4 (pointerPosition ||| pointerLength)

/-- `WriteInt(value int32)`. -/
def WriteInt (b : ByteArray) (value : Int) : ByteArray :=
  let b1 := checkCapacity b (b.position + byteWide4)
  let b2 := { b1 with raw := storeBytes b1.raw b1.position (putUint32 b1.endian (intToUint32 value)) }
  movePointer b2 byteWide4 (pointerPosition ||| pointerLength)

/-- `WriteShort(value int16)`. -/
def WriteShort (b : ByteArray) (value : Int) : ByteArray :=
  let b1 := checkCapacity b (b.position + byteWide2)
  let b2 := { b1 with raw := storeBytes b1.raw b1.position (putUint16 b1.endian (intToUint16 value)) }
  movePointer b2 byteWide2 (pointerPosition ||| pointerLength)

/-- `WriteUnsignedInt(value uint32)`. -/
def WriteUnsignedInt (b : ByteArray) (value : Nat) : ByteArray :=
  let b1 := checkCapacity b (b.position + byteWide4)
  let b2 := { b1 with raw := storeBytes b1.raw b1.position (putUint32 b1.endian (value % 4294967296)) }
  movePointer b2 byteWide4 (pointerPosition ||| pointerLength)

/-- `WriteUTF`: write the byte length as a short, then the raw bytes. -/
def WriteUTF (b : ByteArray) (value : List Nat) : ByteArray :=
  let bs := value
  let length := bs.length
  let b1 := WriteShort b (toInt16 length)
  let b2 := checkCapacity b1 (b1.position + length)
  let b3 := { b2 with raw := storeBytes b2.raw b2.position bs }
  movePointer b3 length (pointerPosition ||| pointerLength)

/-- `WriteUTFBytes`: the raw bytes with no length prefix. -/
def WriteUTFBytes (b : ByteArray) (value : List Nat) : ByteArray :=
  let bs := value
  let length := bs.length
  let b1 := checkCapacity b (b.position + length)
  let b2 := { b1 with raw := storeBytes b1.raw b1.position bs }
  movePointer b2 length (pointerPosition ||| pointerLength)

/-- The spec's three-way buffer invariant. -/
def Inv (b : ByteArray) : Prop :=
  b.position ≤ b.length ∧ b.length ≤ capacity b

instance (b : ByteArray) : Decidable (Inv b) := by
  unfold Inv
  infer_instance

theorem growLoop_ge_self (fuel oldCap newCap : Nat) : oldCap ≤ growLoop fuel oldCap newCap := by
  induction fuel generalizing oldCap with
  | zero => simp [growLoop]
  | succ n ih =>
    simp only [growLoop]
    by_cases hc : oldCap < newCap
    · simp only [if_pos hc]
      exact le_trans (Nat.le_add_left oldCap oldCap) (ih (oldCap + oldCap))
    · simp only [if_neg hc]
      exact le_refl _

theorem growLoop_ge_want (fuel oldCap newCap : Nat) (h1 : 1 ≤ oldCap)
    (h2 : newCap ≤ oldCap + fuel) : newCap ≤ growLoop fuel oldCap newCap := by
  induction fuel generalizing oldCap with
  | zero => simp only [growLoop]; omega
  | succ n ih =>
    simp only [growLoop]
    by_cases hc : oldCap < newCap
    · simp only [if_pos hc]
      exact ih (oldCap + oldCap) (by omega) (by omega)
    · simp only [if_neg hc]; omega

theorem growLoop_lt (fuel oldCap newCap : Nat) (h : oldCap < 2 * newCap) :
    growLoop fuel oldCap newCap < 2 * newCap := by
  induction fuel generalizing oldCap with
  | zero => simpa [growLoop] using h
  | succ n ih =>
    simp only [growLoop]
    by_cases hc : oldCap < newCap
    · simp only [if_pos hc]
      exact ih (oldCap + oldCap) (by omega)
    · simpa only [if_neg hc] using h

theorem growLoop_pow (fuel oldCap newCap : Nat) :
    ∃ k, growLoop fuel oldCap newCap = oldCap * 2 ^ k := by
  induction fuel generalizing oldCap with
  | zero => exact ⟨0, by simp [growLoop]⟩
  | succ n ih =>
    simp only [growLoop]
    by_cases hc : oldCap < newCap
    · simp only [if_pos hc]
      obtain ⟨k, hk⟩ := ih (oldCap + oldCap)
      refine ⟨k + 1, ?_⟩
      rw [hk]; ring
    · exact ⟨0, by simp [if_neg hc]⟩

/-- The fuel passed to `growLoop` is irrelevant as soon as it covers the gap
`newCap - oldCap`: the model computes exactly the Go loop's fixpoint at every
call site (where `1 ≤ oldCap` and the fuel is `newCap`). -/
theorem growLoop_stable :
    ∀ fuel1 fuel2 oldCap newCap : Nat, 1 ≤ oldCap → newCap ≤ oldCap + fuel1 →
      newCap ≤ oldCap + fuel2 →
      growLoop fuel1 oldCap newCap = growLoop fuel2 oldCap newCap := by
  intro fuel1
  induction fuel1 with
  | zero =>
    intro fuel2 oldCap newCap h1 ha hb
    have hno : ¬ oldCap < newCap := by omega
    cases fuel2 with
    | zero => rfl
    | succ m => simp [growLoop, hno]
  | succ n ih =>
    intro fuel2 oldCap newCap h1 ha hb
    by_cases hc : oldCap < newCap
    · cases fuel2 with
      | zero => exact absurd hc (by omega)
      | succ m =>
        simp only [growLoop, if_pos hc]
        exact ih m (oldCap + oldCap) newCap (by omega) (by omega) (by omega)
    · cases fuel2 with
      | zero => simp [growLoop, hc]
      | succ m => simp [growLoop, hc]

theorem checkCapacity_fields (b : ByteArray) (n : Nat) :
    (checkCapacity b n).position = b.position ∧ (checkCapacity b n).length = b.length ∧
      (checkCapacity b n).endian = b.endian := by
  unfold checkCapacity
  dsimp only
  split_ifs <;> exact ⟨rfl, rfl, rfl⟩

theorem capacity_checkCapacity (b : ByteArray) (n : Nat) :
    n ≤ capacity (checkCapacity b n) ∧ capacity b ≤ capacity (checkCapacity b n) := by
  unfold capacity checkCapacity
  by_cases h0 : b.raw.length = 0
  · simp [h0]
  · by_cases h1 : b.raw.length < n
    · simp only [if_neg h0, if_pos h1]
      have htk : (b.raw.take b.length).length ≤ b.raw.length := by
        simp [List.length_take]
      have hc1 : b.raw.length + b.raw.length ≤ growLoop n (b.raw.length + b.raw.length) n :=
        growLoop_ge_self _ _ _
      have hc2 : n ≤ growLoop n (b.raw.length + b.raw.length) n :=
        growLoop_ge_want _ _ _ (by omega) (by omega)
      simp only [List.length_append, List.length_replicate]
      omega
    · simp only [if_neg h0, if_neg h1]
      omega

theorem storeBytes_length (raw : List Nat) (i : Nat) (vs : List Nat)
    (h : i + vs.length ≤ raw.length) : (storeBytes raw i vs).length = raw.length := by
  simp only [storeBytes, List.length_append, List.length_take, List.length_drop]
  omega

theorem movePointer_one (b : ByteArray) (w : Nat) :
    movePointer b w pointerPosition = { b with position := b.position + w } := rfl

theorem movePointer_two (b : ByteArray) (w : Nat) :
    movePointer b w pointerLength =
      if b.length < b.position + w then { b with length := b.position + w } else b := rfl

theorem movePointer_three (b : ByteArray) (w : Nat) :
    movePointer b w (pointerPosition ||| pointerLength) =
      if b.length < b.position + w then
        { b with position := b.position + w, length := b.position + w }
      else { b with position := b.position + w } := rfl

theorem checkLength_none (b : ByteArray) (w : Nat) (h : checkLength b w = none) :
    w ≤ BytesAvailable b := by
  unfold checkLength at h
  by_cases hc : BytesAvailable b < w
  · simp [hc] at h
  · omega

theorem inv_advance (b : ByteArray) (w : Nat) (hb : Inv b) (h : w ≤ BytesAvailable b) :
    Inv (movePointer b w pointerPosition) := by
  rw [movePointer_one]
  obtain ⟨h1, h2⟩ := hb
  constructor
  · show b.position + w ≤ b.length
    unfold BytesAvailable at h
    split at h <;> omega
  · exact h2

theorem putUint16_length (e : Endian) (v : Nat) : (putUint16 e v).length = byteWide2 := by
  cases e <;> rfl

theorem putUint32_length (e : Endian) (v : Nat) : (putUint32 e v).length = byteWide4 := by
  cases e <;> rfl

theorem putUint64_length (e : Endian) (v : Nat) : (putUint64 e v).length = byteWide8 := by
  cases e <;> rfl

/-- Every primitive write shares the shape `checkCapacity`, store, then
`movePointer` with both flags; it preserves the invariant. -/
theorem inv_write_step (b : ByteArray) (w : Nat) (vs : List Nat) (hvs : vs.length = w)
    (hb : Inv b) :
    Inv (movePointer
      { checkCapacity b (b.position + w) with
        raw := storeBytes (checkCapacity b (b.position + w)).raw
                 (checkCapacity b (b.position + w)).position vs }
      w (pointerPosition ||| pointerLength)) := by
  obtain ⟨h1, h2⟩ := hb
  obtain ⟨hp, hl, _⟩ := checkCapacity_fields b (b.position + w)
  obtain ⟨hc1, hc2⟩ := capacity_checkCapacity b (b.position + w)
  unfold capacity at hc1 hc2
  have hstore : (storeBytes (checkCapacity b (b.position + w)).raw
      (checkCapacity b (b.position + w)).position vs).length
      = (checkCapacity b (b.position + w)).raw.length := by
    apply storeBytes_length
    rw [hp, hvs]
    exact hc1
  rw [movePointer_three]
  unfold Inv capacity
  unfold capacity at h2
  split_ifs with h3 <;> dsimp only at h3 ⊢ <;> constructor <;> omega

theorem inv_ReadBoolean (b : ByteArray) (hb : Inv b) : Inv (ReadBoolean b).2.2 := by
  unfold ReadBoolean
  cases h : checkLength b byteWide1 with
  | some e => exact hb
  | none => exact inv_advance b byteWide1 hb (checkLength_none b byteWide1 h)

theorem inv_ReadByte (b : ByteArray) (hb : Inv b) : Inv (ReadByte b).2.2 := by
  unfold ReadByte
  cases h : checkLength b byteWide1 with
  | some e => exact hb
  | none => exact inv_advance b byteWide1 hb (checkLength_none b byteWide1 h)

theorem inv_ReadShort (b : ByteArray) (hb : Inv b) : Inv (ReadShort b).2.2 := by
  unfold ReadShort
  cases h : checkLength b byteWide2 with
  | some e => exact hb
  | none => exact inv_advance b byteWide2 hb (checkLength_none b byteWide2 h)

theorem inv_ReadInt (b : ByteArray) (hb : Inv b) : Inv (ReadInt b).2.2 := by
  unfold ReadInt
  cases h : checkLength b byteWide4 with
  | some e => exact hb
  | none => exact inv_advance b byteWide4 hb (checkLength_none b byteWide4 h)

theorem inv_ReadDouble (b : ByteArray) (hb : Inv b) : Inv (ReadDouble b).2.2 := by
  unfold ReadDouble
  cases h : checkLength b byteWide8 with
  | some e => exact hb
  | none => exact inv_advance b byteWide8 hb (checkLength_none b byteWide8 h)

theorem inv_ReadFloat (b : ByteArray) (hb : Inv b) : Inv (ReadFloat b).2.2 := by
  unfold ReadFloat
  cases h : checkLength b byteWide4 with
  | some e => exact hb
  | none => exact inv_advance b byteWide4 hb (checkLength_none b byteWide4 h)

theorem inv_ReadUnsignedByte (b : ByteArray) (hb : Inv b) : Inv (ReadUnsignedByte b).2.2 := by
  unfold ReadUnsignedByte
  cases h : checkLength b byteWide1 with
  | some e => exact hb
  | none => exact inv_advance b byteWide1 hb (checkLength_none b byteWide1 h)

theorem inv_ReadUnsignedShort (b : ByteArray) (hb : Inv b) : Inv (ReadUnsignedShort b).2.2 := by
  unfold ReadUnsignedShort
  cases h : checkLength b byteWide2 with
  | some e => exact hb
  | none => exact inv_advance b byteWide2 hb (checkLength_none b byteWide2 h)

theorem inv_ReadUnsignedInt (b : ByteArray) (hb : Inv b) : Inv (ReadUnsignedInt b).2.2 := by
  unfold ReadUnsignedInt
  cases h : checkLength b byteWide4 with
  | some e => exact hb
  | none => exact inv_advance b byteWide4 hb (checkLength_none b byteWide4 h)

theorem inv_ReadUTFBytes (b : ByteArray) (n : Nat) (hb : Inv b) :
    Inv (ReadUTFBytes b n).2.2 := by
  unfold ReadUTFBytes
  cases h : checkLength b n with
  | some e => exact hb
  | none => exact inv_advance b n hb (checkLength_none b n h)

theorem inv_ReadUTF (b : ByteArray) (hb : Inv b) : Inv (ReadUTF b).2.2 := by
  unfold ReadUTF
  exact inv_ReadUTFBytes _ _ (inv_ReadUnsignedShort b hb)

theorem inv_SetEndian (b : ByteArray) (e : Endian) (hb : Inv b) : Inv (SetEndian b e) :=
  ⟨hb.1, hb.2⟩

theorem inv_SetLength (b : ByteArray) (n : Nat) (hb : Inv b) : Inv (SetLength b n) := by
  obtain ⟨h1, h2⟩ := hb
  obtain ⟨hp, hl, _⟩ := checkCapacity_fields b n
  obtain ⟨hc1, hc2⟩ := capacity_checkCapacity b n
  unfold Inv capacity at *
  unfold SetLength SetPosition
  dsimp only
  split_ifs <;> (try dsimp only at *) <;> omega

theorem inv_SetPosition_zero (b : ByteArray) (hb : Inv b) : Inv (SetPosition b 0) := by
  obtain ⟨h1, h2⟩ := hb
  unfold Inv capacity SetPosition at *
  split_ifs <;> (try dsimp only) <;> omega

theorem inv_Clear (b : ByteArray) (hb : Inv b) : Inv (Clear b) := by
  unfold Clear
  exact inv_SetLength _ 0 (inv_SetPosition_zero b hb)

theorem inv_WriteBoolean (b : ByteArray) (v : Bool) (hb : Inv b) : Inv (WriteBoolean b v) := by
  unfold WriteBoolean
  exact inv_write_step b byteWide1 _ rfl hb

theorem inv_WriteByte (b : ByteArray) (v : Int) (hb : Inv b) : Inv (WriteByte b v) := by
  unfold WriteByte
  exact inv_write_step b byteWide1 _ rfl hb

theorem inv_WriteShort (b : ByteArray) (v : Int) (hb : Inv b) : Inv (WriteShort b v) := by
  unfold WriteShort
  exact inv_write_step b byteWide2 _ (putUint16_length _ _) hb

theorem inv_WriteInt (b : ByteArray) (v : Int) (hb : Inv b) : Inv (WriteInt b v) := by
  unfold WriteInt
  exact inv_write_step b byteWide4 _ (putUint32_length _ _) hb

theorem inv_WriteUnsignedInt (b : ByteArray) (v : Nat) (hb : Inv b) :
    Inv (WriteUnsignedInt b v) := by
  unfold WriteUnsignedInt
  exact inv_write_step b byteWide4 _ (putUint32_length _ _) hb

theorem inv_WriteFloat (b : ByteArray) (bits : Nat) (hb : Inv b) : Inv (WriteFloat b bits) := by
  unfold WriteFloat
  exact inv_write_step b byteWide4 _ (putUint32_length _ _) hb

theorem inv_WriteDouble (b : ByteArray) (bits : Nat) (hb : Inv b) : Inv (WriteDouble b bits) := by
  unfold WriteDouble
  exact inv_write_step b byteWide8 _ (putUint64_length _ _) hb

theorem inv_WriteUTFBytes (b : ByteArray) (s : List Nat) (hb : Inv b) :
    Inv (WriteUTFBytes b s) := by
  unfold WriteUTFBytes
  exact inv_write_step b s.length s rfl hb

theorem inv_WriteUTF (b : ByteArray) (s : List Nat) (hb : Inv b) : Inv (WriteUTF b s) := by
  unfold WriteUTF
  exact inv_write_step (WriteShort b (toInt16 s.length)) s.length s rfl
    (inv_WriteShort b _ hb)

theorem inv_readBytesCopy (b c : ByteArray) (offset length : Nat) (hb : Inv b) (hc : Inv c)
    (hn : length ≤ BytesAvailable b) :
    Inv (readBytesCopy b c offset length).2.1 ∧ Inv (readBytesCopy b c offset length).2.2 := by
  unfold readBytesCopy
  by_cases hr : 4294967295 < offset + length
  · simp only [if_pos hr]
    exact ⟨hb, hc⟩
  · simp only [if_neg hr]
    try dsimp only
    constructor
    · exact inv_advance b length hb hn
    · obtain ⟨hc1, hc2⟩ := hc
      obtain ⟨hp, hl, _⟩ := checkCapacity_fields c (offset + length)
      obtain ⟨hg1, hg2⟩ := capacity_checkCapacity c (offset + length)
      unfold capacity at hg1 hg2 hc2
      have hsrc : ((b.raw.drop b.position).take length).length ≤ length := by
        simp [List.length_take]
      have hstore : (storeBytes (checkCapacity c (offset + length)).raw offset
          ((b.raw.drop b.position).take length)).length
          = (checkCapacity c (offset + length)).raw.length := by
        apply storeBytes_length
        omega
      split_ifs with hext
      · rw [movePointer_two]
        unfold Inv capacity
        split_ifs with hmv <;> dsimp only at hext hmv ⊢ <;> constructor <;> omega
      · unfold Inv capacity
        dsimp only at hext ⊢
        constructor <;> omega

theorem inv_ReadBytes (b c : ByteArray) (offset length : Nat) (hb : Inv b) (hc : Inv c) :
    Inv (ReadBytes b c offset length).2.1 ∧ Inv (ReadBytes b c offset length).2.2 := by
  unfold ReadBytes
  by_cases h0 : length = 0
  · simp only [if_pos h0]
    try dsimp only
    by_cases ha : BytesAvailable b = 0
    · simp only [if_pos ha]
      exact ⟨hb, hc⟩
    · simp only [if_neg ha]
      exact inv_readBytesCopy b c offset _ hb hc (le_refl _)
  · simp only [if_neg h0]
    cases hcl : checkLength b length with
    | some e => exact ⟨hb, hc⟩
    | none => exact inv_readBytesCopy b c offset length hb hc (checkLength_none _ _ hcl)

theorem SetPosition_fields (b : ByteArray) (n : Nat) :
    (SetPosition b n).length = b.length ∧ capacity (SetPosition b n) = capacity b := by
  unfold SetPosition capacity
  split_ifs <;> exact ⟨rfl, rfl⟩

/-- The tail of `WriteBytes` after the clamping: position advances by the
clamped length, the logical length does not move, the capacity can only
grow. -/
theorem writeTail_fields (b : ByteArray) (vsrc : List Nat) (len2 : Nat)
    (hv : vsrc.length ≤ len2) :
    (movePointer
      { checkCapacity b (b.position + len2) with
        raw := storeBytes (checkCapacity b (b.position + len2)).raw
                 (checkCapacity b (b.position + len2)).position vsrc }
      len2 pointerPosition).position = b.position + len2 ∧
    (movePointer
      { checkCapacity b (b.position + len2) with
        raw := storeBytes (checkCapacity b (b.position + len2)).raw
                 (checkCapacity b (b.position + len2)).position vsrc }
      len2 pointerPosition).length = b.length ∧
    capacity b ≤ capacity (movePointer
      { checkCapacity b (b.position + len2) with
        raw := storeBytes (checkCapacity b (b.position + len2)).raw
                 (checkCapacity b (b.position + len2)).position vsrc }
      len2 pointerPosition) := by
  obtain ⟨hp, hl, _⟩ := checkCapacity_fields b (b.position + len2)
  obtain ⟨hg1, hg2⟩ := capacity_checkCapacity b (b.position + len2)
  unfold capacity at hg1 hg2
  have hstore : (storeBytes (checkCapacity b (b.position + len2)).raw
      (checkCapacity b (b.position + len2)).position vsrc).length
      = (checkCapacity b (b.position + len2)).raw.length := by
    apply storeBytes_length
    omega
  rw [movePointer_one]
  unfold capacity
  refine ⟨?_, ?_, ?_⟩ <;> dsimp only <;> omega

theorem WriteBytes_fields (b c : ByteArray) (offset length : Nat) :
    (WriteBytes b c offset length).position = b.position + writeBytesLen c offset length ∧
    (WriteBytes b c offset length).length = b.length ∧
    capacity b ≤ capacity (WriteBytes b c offset length) := by
  unfold WriteBytes writeBytesLen
  dsimp only
  split_ifs <;>
    exact writeTail_fields b _ _ (by simp [List.length_take])

theorem ReadBoolean_err (b : ByteArray) :
    (ReadBoolean b).2.1 ≠ none → (ReadBoolean b).2.2 = b := by
  unfold ReadBoolean
  cases hcl : checkLength b byteWide1 with
  | some e => intro _; rfl
  | none => intro h; exact absurd rfl h

theorem ReadByte_err (b : ByteArray) :
    (ReadByte b).2.1 ≠ none → (ReadByte b).2.2 = b := by
  unfold ReadByte
  cases hcl : checkLength b byteWide1 with
  | some e => intro _; rfl
  | none => intro h; exact absurd rfl h

theorem ReadShort_err (b : ByteArray) :
    (ReadShort b).2.1 ≠ none → (ReadShort b).2.2 = b := by
  unfold ReadShort
  cases hcl : checkLength b byteWide2 with
  | some e => intro _; rfl
  | none => intro h; exact absurd rfl h

theorem ReadInt_err (b : ByteArray) :
    (ReadInt b).2.1 ≠ none → (ReadInt b).2.2 = b := by
  unfold ReadInt
  cases hcl : checkLength b byteWide4 with
  | some e => intro _; rfl
  | none => intro h; exact absurd rfl h

theorem ReadDouble_err (b : ByteArray) :
    (ReadDouble b).2.1 ≠ none → (ReadDouble b).2.2 = b := by
  unfold ReadDouble
  cases hcl : checkLength b byteWide8 with
  | some e => intro _; rfl
  | none => intro h; exact absurd rfl h

theorem ReadFloat_err (b : ByteArray) :
    (ReadFloat b).2.1 ≠ none → (ReadFloat b).2.2 = b := by
  unfold ReadFloat
  cases hcl : checkLength b byteWide4 with
  | some e => intro _; rfl
  | none => intro h; exact absurd rfl h

theorem ReadUnsignedByte_err (b : ByteArray) :
    (ReadUnsignedByte b).2.1 ≠ none → (ReadUnsignedByte b).2.2 = b := by
  unfold ReadUnsignedByte
  cases hcl : checkLength b byteWide1 with
  | some e => intro _; rfl
  | none => intro h; exact absurd rfl h

theorem ReadUnsignedShort_err (b : ByteArray) :
    (ReadUnsignedShort b).2.1 ≠ none → (ReadUnsignedShort b).2.2 = b := by
  unfold ReadUnsignedShort
  cases hcl : checkLength b byteWide2 with
  | some e => intro _; rfl
  | none => intro h; exact absurd rfl h

theorem ReadUnsignedInt_err (b : ByteArray) :
    (ReadUnsignedInt b).2.1 ≠ none → (ReadUnsignedInt b).2.2 = b := by
  unfold ReadUnsignedInt
  cases hcl : checkLength b byteWide4 with
  | some e => intro _; rfl
  | none => intro h; exact absurd rfl h

theorem ReadUTFBytes_err (b : ByteArray) (n : Nat) :
    (ReadUTFBytes b n).2.1 ≠ none → (ReadUTFBytes b n).2.2 = b := by
  unfold ReadUTFBytes
  cases hcl : checkLength b n with
  | some e => intro _; rfl
  | none => intro h; exact absurd rfl h

theorem readBytesCopy_err (b c : ByteArray) (offset length : Nat) :
    (readBytesCopy b c offset length).1 ≠ none →
      (readBytesCopy b c offset length).2 = (b, c) := by
  unfold readBytesCopy
  by_cases hr : 4294967295 < offset + length
  · simp only [if_pos hr]
    intro _; trivial
  · simp only [if_neg hr]
    try dsimp only
    intro h; exact absurd rfl h

theorem ReadBytes_err (b c : ByteArray) (offset length : Nat) :
    (ReadBytes b c offset length).1 ≠ none → (ReadBytes b c offset length).2 = (b, c) := by
  unfold ReadBytes
  by_cases h0 : length = 0
  · simp only [if_pos h0]
    try dsimp only
    by_cases ha : BytesAvailable b = 0
    · simp only [if_pos ha]
      intro h; exact absurd rfl h
    · simp only [if_neg ha]
      exact readBytesCopy_err b c offset _
  · simp only [if_neg h0]
    cases hcl : checkLength b length with
    | some e => intro _; rfl
    | none => exact readBytesCopy_err b c offset length

/-- `ReadUTF` can only fail after the prefix read has succeeded and moved the
cursor: a failing `ReadUTF` has advanced the position by exactly two. -/
theorem ReadUTF_err (b : ByteArray) :
    (ReadUTF b).2.1 ≠ none →
      (ReadUTF b).2.2 = { b with position := b.position + byteWide2 } := by
  unfold ReadUTF ReadUnsignedShort
  cases hcl : checkLength b byteWide2 with
  | some e =>
    try dsimp only
    unfold ReadUTFBytes
    cases hcl2 : checkLength b 0 with
    | some e2 =>
      exfalso
      unfold checkLength at hcl2
      simp at hcl2
    | none => intro h; exact absurd rfl h
  | none =>
    try dsimp only
    unfold ReadUTFBytes
    cases hcl2 : checkLength (movePointer b byteWide2 pointerPosition)
        (euint16 b.endian (b.raw.drop b.position)) with
    | some e2 => intro _; exact movePointer_one b byteWide2
    | none => intro h; exact absurd rfl h

/-- When the prefix read of `ReadUTF` fails, the error is discarded and the
call degenerates to `ReadUTFBytes` with length 0, which succeeds with the
empty string and an untouched buffer. -/
theorem ReadUTF_short_failure (b : ByteArray)
    (h : (ReadUnsignedShort b).2.1 = some Err.eof) : ReadUTF b = ([], none, b) := by
  unfold ReadUTF
  unfold ReadUnsignedShort at h ⊢
  revert h
  cases hcl : checkLength b byteWide2 with
  | some e =>
    intro _
    try dsimp only
    unfold ReadUTFBytes
    cases hcl2 : checkLength b 0 with
    | some e2 =>
      exfalso
      unfold checkLength at hcl2
      simp at hcl2
    | none => rfl
  | none =>
    intro h
    exact Option.noConfusion h

/-- C1 (counterexample): the invariant `position ≤ length` does not survive
every public operation — `SetPosition 5` on a fresh buffer leaves
`length = 0 < 5 = position`. -/
theorem C1_counterexample :
    (SetPosition (NewByteArray none) 5).length < (SetPosition (NewByteArray none) 5).position := by
  decide

/-- C1 (amended): every public operation other than `SetPosition` and
`WriteBytes` preserves `0 ≤ position ≤ length ≤ capacity`, provided every
buffer handed to it satisfied the invariant; `SetPosition` and `WriteBytes`
still preserve `length ≤ capacity` but can leave `position > length`. -/
theorem C1_amended_inv_preservation (b c : ByteArray) (e : Endian) (n offset len m : Nat)
    (v : Int) (bits : Nat) (bv : Bool) (s : List Nat) (hb : Inv b) (hc : Inv c) :
    Inv (NewByteArray (some s)) ∧ Inv (NewByteArray none) ∧
    Inv (SetEndian b e) ∧ Inv (SetLength b n) ∧ Inv (Clear b) ∧
    Inv (ReadBoolean b).2.2 ∧ Inv (ReadByte b).2.2 ∧ Inv (ReadShort b).2.2 ∧
    Inv (ReadInt b).2.2 ∧ Inv (ReadDouble b).2.2 ∧ Inv (ReadFloat b).2.2 ∧
    Inv (ReadUnsignedByte b).2.2 ∧ Inv (ReadUnsignedShort b).2.2 ∧
    Inv (ReadUnsignedInt b).2.2 ∧ Inv (ReadUTFBytes b m).2.2 ∧ Inv (ReadUTF b).2.2 ∧
    Inv (ReadBytes b c offset len).2.1 ∧ Inv (ReadBytes b c offset len).2.2 ∧
    Inv (WriteBoolean b bv) ∧ Inv (WriteByte b v) ∧ Inv (WriteShort b v) ∧
    Inv (WriteInt b v) ∧ Inv (WriteUnsignedInt b n) ∧ Inv (WriteFloat b bits) ∧
    Inv (WriteDouble b bits) ∧ Inv (WriteUTF b s) ∧ Inv (WriteUTFBytes b s) ∧
    (SetPosition b m).length ≤ capacity (SetPosition b m) ∧
    (WriteBytes b c offset len).length ≤ capacity (WriteBytes b c offset len) := by
  refine ⟨⟨Nat.le_refl 0, Nat.zero_le _⟩, ⟨Nat.le_refl 0, Nat.zero_le _⟩,
    inv_SetEndian b e hb, inv_SetLength b n hb, inv_Clear b hb,
    inv_ReadBoolean b hb, inv_ReadByte b hb, inv_ReadShort b hb, inv_ReadInt b hb,
    inv_ReadDouble b hb, inv_ReadFloat b hb, inv_ReadUnsignedByte b hb,
    inv_ReadUnsignedShort b hb, inv_ReadUnsignedInt b hb, inv_ReadUTFBytes b m hb,
    inv_ReadUTF b hb, (inv_ReadBytes b c offset len hb hc).1,
    (inv_ReadBytes b c offset len hb hc).2,
    inv_WriteBoolean b bv hb, inv_WriteByte b v hb, inv_WriteShort b v hb,
    inv_WriteInt b v hb, inv_WriteUnsignedInt b n hb, inv_WriteFloat b bits hb,
    inv_WriteDouble b bits hb, inv_WriteUTF b s hb, inv_WriteUTFBytes b s hb, ?_, ?_⟩
  · rw [(SetPosition_fields b m).1, (SetPosition_fields b m).2]
    exact hb.2
  · have h := WriteBytes_fields b c offset len
    rw [h.2.1]
    exact le_trans hb.2 h.2.2

/-- C1 (witness): the amended preservation theorem applied at a concrete
invariant-satisfying pair of buffers. -/
theorem C1_witness :
    Inv (SetLength (⟨[1, 2, 0, 0], Endian.big, 1, 2⟩ : ByteArray) 3) ∧
    Inv (ReadBytes (⟨[1, 2, 0, 0], Endian.big, 1, 2⟩ : ByteArray)
      (⟨[5], Endian.little, 0, 1⟩ : ByteArray) 1 1).2.2 ∧
    Inv (WriteInt (⟨[1, 2, 0, 0], Endian.big, 1, 2⟩ : ByteArray) (-7)) := by
  have h := C1_amended_inv_preservation (⟨[1, 2, 0, 0], Endian.big, 1, 2⟩ : ByteArray)
    (⟨[5], Endian.little, 0, 1⟩ : ByteArray) Endian.little 3 1 1 9 (-7) 12345 true [10, 20]
    (by decide) (by decide)
  exact ⟨by tauto, by tauto, by tauto⟩

/-- C2 (code bug): `WriteInt (-1)` followed by a read at the same position
yields `4294967295`, not `-1` — `int(uint32)` zero-extends on 64-bit Go
targets, contradicting `ReadInt`'s documented range of
−2147483648..2147483647 and the spec's exact round-trip — under either
endianness. -/
theorem C2_readInt_zero_extension :
    (ReadInt (SetPosition (WriteInt (NewByteArray none) (-1)) 0)).1 = (4294967295 : Int) ∧
    (ReadInt (SetPosition (WriteInt (SetEndian (NewByteArray none) Endian.little) (-1)) 0)).1
      = (4294967295 : Int) ∧
    (4294967295 : Int) ≠ (-1 : Int) := by
  decide

/-- C3 (counterexample): `ReadUTF` on a buffer holding only the prefix
`[0, 5]` fails with the end-of-data error, yet its position has advanced
from 0 to 2. -/
theorem C3_counterexample :
    (ReadUTF (SetPosition (WriteByte (WriteByte (NewByteArray none) 0) 5) 0)).2.1
      = some Err.eof ∧
    (SetPosition (WriteByte (WriteByte (NewByteArray none) 0) 5) 0).position = 0 ∧
    (ReadUTF (SetPosition (WriteByte (WriteByte (NewByteArray none) 0) 5) 0)).2.2.position
      = 2 := by
  decide

/-- C3 (amended): every failing read other than `ReadUTF` leaves the buffer
exactly as it was (no cursor advance, length untouched); a failing `ReadUTF`
leaves the length and contents untouched but has consumed the 2-byte
prefix, so its position has advanced by exactly 2. -/
theorem C3_amended_no_partial_advance (b c : ByteArray) (offset length n : Nat) :
    ((ReadBoolean b).2.1 ≠ none → (ReadBoolean b).2.2 = b) ∧
    ((ReadByte b).2.1 ≠ none → (ReadByte b).2.2 = b) ∧
    ((ReadShort b).2.1 ≠ none → (ReadShort b).2.2 = b) ∧
    ((ReadInt b).2.1 ≠ none → (ReadInt b).2.2 = b) ∧
    ((ReadDouble b).2.1 ≠ none → (ReadDouble b).2.2 = b) ∧
    ((ReadFloat b).2.1 ≠ none → (ReadFloat b).2.2 = b) ∧
    ((ReadUnsignedByte b).2.1 ≠ none → (ReadUnsignedByte b).2.2 = b) ∧
    ((ReadUnsignedShort b).2.1 ≠ none → (ReadUnsignedShort b).2.2 = b) ∧
    ((ReadUnsignedInt b).2.1 ≠ none → (ReadUnsignedInt b).2.2 = b) ∧
    ((ReadUTFBytes b n).2.1 ≠ none → (ReadUTFBytes b n).2.2 = b) ∧
    ((ReadBytes b c offset length).1 ≠ none → (ReadBytes b c offset length).2 = (b, c)) ∧
    ((ReadUTF b).2.1 ≠ none →
      (ReadUTF b).2.2 = { b with position := b.position + byteWide2 }) :=
  ⟨ReadBoolean_err b, ReadByte_err b, ReadShort_err b, ReadInt_err b, ReadDouble_err b,
   ReadFloat_err b, ReadUnsignedByte_err b, ReadUnsignedShort_err b, ReadUnsignedInt_err b,
   ReadUTFBytes_err b n, ReadBytes_err b c offset length, ReadUTF_err b⟩

/-- C3 (witness): a failing `ReadDouble` on a 3-byte buffer leaves the state
unchanged, and a failing `ReadUTF` lands on the prefix-consumed state. -/
theorem C3_witness :
    (ReadDouble (SetPosition (WriteByte (WriteByte (WriteByte
      (NewByteArray none) 1) 2) 3) 0)).2.2
      = SetPosition (WriteByte (WriteByte (WriteByte (NewByteArray none) 1) 2) 3) 0 ∧
    (ReadUTF (SetPosition (WriteByte (WriteByte (NewByteArray none) 0) 5) 0)).2.2
      = { SetPosition (WriteByte (WriteByte (NewByteArray none) 0) 5) 0 with
          position := (SetPosition (WriteByte (WriteByte (NewByteArray none) 0) 5) 0).position
            + byteWide2 } := by
  have h1 := C3_amended_no_partial_advance
    (SetPosition (WriteByte (WriteByte (WriteByte (NewByteArray none) 1) 2) 3) 0)
    (NewByteArray none) 0 1 1
  have h2 := C3_amended_no_partial_advance
    (SetPosition (WriteByte (WriteByte (NewByteArray none) 0) 5) 0)
    (NewByteArray none) 0 1 1
  exact ⟨h1.2.2.2.2.1 (by decide), h2.2.2.2.2.2.2.2.2.2.2.2 (by decide)⟩

/-- C4 (counterexample): when the prefix read fails (empty buffer), `ReadUTF`
does not fail — it reports success. -/
theorem C4_counterexample :
    (ReadUnsignedShort (NewByteArray none)).2.1 = some Err.eof ∧
    (ReadUTF (NewByteArray none)).2.1 = none := by
  decide

/-- C4 (amended): `ReadUTF` does read an unsigned short and delegate its
value to `ReadUTFBytes`, but it discards the short read's error: when that
read fails, `ReadUTF` calls `ReadUTFBytes` with length 0 and succeeds with
the empty string on an untouched buffer instead of failing. -/
theorem C4_amended_delegation (b : ByteArray) :
    ReadUTF b = ReadUTFBytes (ReadUnsignedShort b).2.2 (ReadUnsignedShort b).1 ∧
    ((ReadUnsignedShort b).2.1 = some Err.eof → ReadUTF b = ([], none, b)) :=
  ⟨rfl, ReadUTF_short_failure b⟩

/-- C4 (witness): on the empty buffer the prefix read fails and `ReadUTF`
returns the empty string with no error. -/
theorem C4_witness : ReadUTF (NewByteArray none) = ([], none, NewByteArray none) :=
  (C4_amended_delegation (NewByteArray none)).2 (by decide)

/-- C5 (code bug, evaluated): a successful `ReadBytes dst 4 3` into a
destination with `length = 5 < 7` leaves the destination's length at 5
instead of extending it to `offset + n = 7` (the length update goes through
`movePointer`, which adds the delta to the destination's *position*); the
copy itself, the source advance and the capacity growth all behave as
described. -/
theorem C5_dst_length_not_extended :
    (let src := SetPosition (WriteByte (WriteByte (WriteByte (NewByteArray none) 9) 8) 7) 0
     let dst := SetLength (NewByteArray none) 5
     let r := ReadBytes src dst 4 3
     r.1 = none ∧ dst.length < 4 + 3 ∧ r.2.2.length = 5 ∧ r.2.2.length ≠ 4 + 3 ∧
       r.2.1.position = 3 ∧ r.2.1.length = src.length ∧ 4 + 3 ≤ capacity r.2.2 ∧
       r.2.2.position = dst.position ∧ r.2.2.raw = [0, 0, 0, 0, 9, 8, 7, 0, 0, 0]) := by
  decide

/-- C6 (counterexample): `WriteBytes` of two bytes into a fresh buffer moves
the position to 2 past the length, but the length stays 0 — the
write-extends-length rule does not apply. -/
theorem C6_counterexample :
    (let src := WriteByte (WriteByte (NewByteArray none) 1) 2
     let r := WriteBytes (NewByteArray none) src 0 2
     (NewByteArray none).length < r.position ∧ r.position = 2 ∧ r.length = 0) := by
  decide

/-- C6 (amended): `WriteBytes` advances the position by the clamped copy
length but never touches this buffer's length (it calls `movePointer` with
the position flag only). -/
theorem C6_amended_position_only (b c : ByteArray) (offset length : Nat) :
    (WriteBytes b c offset length).position = b.position + writeBytesLen c offset length ∧
    (WriteBytes b c offset length).length = b.length :=
  ⟨(WriteBytes_fields b c offset length).1, (WriteBytes_fields b c offset length).2.1⟩

/-- C7: `checkCapacity` allocates exactly `want` bytes on an empty store,
doubles repeatedly (reaching a capacity in `[want, 2*want)` of the form
`capacity * 2^k`, `k ≥ 1`) while copying the valid-length prefix when
`0 < capacity < want`, and is the identity when `want ≤ capacity`. -/
theorem C7_checkCapacity_growth (b : ByteArray) (want : Nat)
    (hlen : b.length ≤ capacity b) :
    (capacity b = 0 → capacity (checkCapacity b want) = want) ∧
    (0 < capacity b → capacity b < want →
      want ≤ capacity (checkCapacity b want) ∧
      capacity (checkCapacity b want) < 2 * want ∧
      (∃ k, 1 ≤ k ∧ capacity (checkCapacity b want) = capacity b * 2 ^ k) ∧
      (checkCapacity b want).raw.take b.length = b.raw.take b.length) ∧
    (want ≤ capacity b → checkCapacity b want = b) := by
  refine ⟨?_, ?_, ?_⟩
  · intro h0
    unfold capacity at h0 ⊢
    unfold checkCapacity
    simp [h0]
  · intro hpos hlt
    unfold capacity at hpos hlt hlen ⊢
    unfold checkCapacity
    have h0 : ¬ b.raw.length = 0 := by omega
    simp only [if_neg h0, if_pos hlt]
    try dsimp only
    have hself := growLoop_ge_self want (b.raw.length + b.raw.length) want
    have hwant := growLoop_ge_want want (b.raw.length + b.raw.length) want
      (by omega) (by omega)
    have hlt2 := growLoop_lt want (b.raw.length + b.raw.length) want (by omega)
    obtain ⟨k, hk⟩ := growLoop_pow want (b.raw.length + b.raw.length) want
    have htk : (b.raw.take b.length).length = b.length := by
      simp only [List.length_take]
      omega
    refine ⟨?_, ?_, ⟨k + 1, by omega, ?_⟩, ?_⟩
    · simp only [List.length_append, List.length_replicate]
      omega
    · simp only [List.length_append, List.length_replicate]
      omega
    · simp only [List.length_append, List.length_replicate]
      have h2 : b.raw.length * 2 ^ (k + 1) = (b.raw.length + b.raw.length) * 2 ^ k := by
        ring
      rw [h2, ← hk]
      omega
    · simp [List.take_append_eq_append_take, htk, List.take_take]
  · intro hwle
    unfold capacity at hwle
    unfold checkCapacity
    by_cases h0 : b.raw.length = 0
    · simp only [if_pos h0]
      have hnil : b.raw = [] := List.length_eq_zero.mp h0
      have hw0 : want = 0 := by omega
      rw [hw0, show List.replicate 0 (0 : Nat) = b.raw from hnil.symm]
    · have h1 : ¬ b.raw.length < want := by omega
      simp only [if_neg h0, if_neg h1]

/-- C7 (witness): growing a 3-byte store to 7 doubles to 12 and preserves
the prefix, and requesting 2 is the identity. -/
theorem C7_witness :
    (7 ≤ capacity (checkCapacity (⟨[1, 2, 3], Endian.big, 0, 3⟩ : ByteArray) 7) ∧
      capacity (checkCapacity (⟨[1, 2, 3], Endian.big, 0, 3⟩ : ByteArray) 7) < 2 * 7 ∧
      (∃ k, 1 ≤ k ∧ capacity (checkCapacity (⟨[1, 2, 3], Endian.big, 0, 3⟩ : ByteArray) 7)
        = capacity (⟨[1, 2, 3], Endian.big, 0, 3⟩ : ByteArray) * 2 ^ k) ∧
      (checkCapacity (⟨[1, 2, 3], Endian.big, 0, 3⟩ : ByteArray) 7).raw.take
          (⟨[1, 2, 3], Endian.big, 0, 3⟩ : ByteArray).length
        = (⟨[1, 2, 3], Endian.big, 0, 3⟩ : ByteArray).raw.take
            (⟨[1, 2, 3], Endian.big, 0, 3⟩ : ByteArray).length) ∧
    checkCapacity (⟨[1, 2, 3], Endian.big, 0, 3⟩ : ByteArray) 2
      = (⟨[1, 2, 3], Endian.big, 0, 3⟩ : ByteArray) :=
  ⟨(C7_checkCapacity_growth (⟨[1, 2, 3], Endian.big, 0, 3⟩ : ByteArray) 7
      (by decide)).2.1 (by decide) (by decide),
   (C7_checkCapacity_growth (⟨[1, 2, 3], Endian.big, 0, 3⟩ : ByteArray) 2
      (by decide)).2.2 (by decide)⟩

/-- C8: `ReadBytes(dst, offset, 0)` on a source with no bytes available is a
true no-op: success, and both buffers (contents, positions, lengths) are
returned exactly as given. -/
theorem C8_readBytes_zero_noop (b c : ByteArray) (offset : Nat)
    (h : BytesAvailable b = 0) : ReadBytes b c offset 0 = (none, b, c) := by
  unfold ReadBytes
  simp [h]

/-- C8 (witness): the no-op applied to an empty source and a wrapped
one-byte destination. -/
theorem C8_witness :
    ReadBytes (NewByteArray none) (NewByteArray (some [7])) 3 0 =
      (none, NewByteArray none, NewByteArray (some [7])) :=
  C8_readBytes_zero_noop (NewByteArray none) (NewByteArray (some [7])) 3 (by decide)

/-- C9 (code bug, evaluated): a reachable state (built with `SetPosition 10`
followed by a `ReadBytes` into that buffer) has `length = 12 > capacity = 2`;
on it the availability check of a one-byte read passes even though
`position + 1 = 11` exceeds the backing store's capacity — the Go code then
indexes `raw` out of bounds and panics. -/
theorem C9_bounds_violation_reachable :
    (let src := SetPosition (WriteByte (WriteByte (NewByteArray none) 1) 2) 0
     let dst := SetPosition (NewByteArray none) 10
     let d := (ReadBytes src dst 0 2).2.2
     checkLength d byteWide1 = none ∧ capacity d < d.position + byteWide1 ∧
       capacity d = 2 ∧ d.length = 12) := by
  decide

/-- C10: wrapping a slice keeps it as the backing store (capacity = its
length) with position and length 0 — so a fresh wrap has nothing readable —
and the nil case gives the empty big-endian buffer. -/
theorem C10_NewByteArray_init (s : List Nat) :
    NewByteArray (some s) = { raw := s, endian := Endian.big, position := 0, length := 0 } ∧
    capacity (NewByteArray (some s)) = s.length ∧
    (ReadByte (NewByteArray (some s))).2.1 = some Err.eof ∧
    NewByteArray none = { raw := [], endian := Endian.big, position := 0, length := 0 } :=
  ⟨rfl, rfl, rfl, rfl⟩

end AS2GO
